import Mathlib

/-!
# Verification of `pydantic_partial.partial` (partial-model derivation)

Shallow embedding of `src/pydantic_partial/partial.py`.

* `Model` embeds a pydantic model class that inherits `PartialModelMixin`
  (a name, plus an ordered field mapping `model_fields`).
* `Ann` embeds a Python type annotation as the engine observes it through
  `typing.get_origin` / `typing.get_args`: a plain non-model type, `NoneType`,
  a derivable model class (`isinstance(ann, type) and issubclass(ann,
  PartialModelMixin)`), or a parametrized container.  The four origins the
  engine rebuilds (`Union`, `list`, `tuple`, `dict`) get their own
  constructors; `otherC` stands for any other parametrized origin (e.g.
  `set[...]`), which the rebuild test `origin in (Union, list, Tuple, tuple,
  List, dict, Dict)` does not match.
* `FieldInfo` embeds a pydantic field descriptor as seen through the
  compatibility layer: resolved-or-absent annotation, default value
  (`Default.undefined` = `PydanticUndefined`), presence of a
  default_factory, and a nullability-constraint flag.  Default values other
  than `None`/undefined are abstracted as `Default.value n`.

The `_compat` module (`PydanticCompat`) is not part of the sources under
verification; its four operations used by `partial.py` are modelled from the
spec, see the doc comments marked `Modelled from the spec:` below.
-/

set_option autoImplicit false

namespace PydanticPartial

/-- A field's default value: `undefined` embeds `PydanticUndefined`
(no default), `noneD` embeds the default `None`, and `value n` abstracts any
other concrete Python default value. -/
inductive Default : Type where
  | undefined : Default
  | noneD : Default
  | value : Nat → Default
deriving DecidableEq, Repr

mutual

/-- A Python type annotation, as observed through
`typing.get_origin`/`get_args` by `create_partial_model`. -/
inductive Ann : Type where
  /-- A plain non-model type (e.g. `str`, `int`), identified by name. -/
  | base : String → Ann
  /-- `NoneType`. -/
  | noneType : Ann
  /-- A model class that inherits `PartialModelMixin` (derivable). -/
  | model : Model → Ann
  /-- `Union[...]` with the given argument list. -/
  | union : AnnList → Ann
  /-- `list[...]` / `List[...]`. -/
  | listC : AnnList → Ann
  /-- `tuple[...]` / `Tuple[...]`. -/
  | tupleC : AnnList → Ann
  /-- `dict[...]` / `Dict[...]`. -/
  | dictC : AnnList → Ann
  /-- Any parametrized container whose origin is not `Union`, `list`,
  `tuple` or `dict` (for example `set[...]`), with its argument list. -/
  | otherC : AnnList → Ann

/-- A list of annotation arguments (`typing.get_args` result). -/
inductive AnnList : Type where
  | nil : AnnList
  | cons : Ann → AnnList → AnnList

/-- The annotation slot of a field descriptor:
`unresolved` embeds `field_info.annotation is None`. -/
inductive OptAnn : Type where
  | unresolved : OptAnn
  | resolved : Ann → OptAnn

/-- A pydantic field descriptor (`FieldInfo`), as seen through the
compatibility layer: annotation, default, whether a default_factory is set,
and the nullability-constraint flag. -/
inductive FieldInfo : Type where
  | mk : OptAnn → Default → Bool → Bool → FieldInfo

/-- The ordered field mapping `model_fields`: field name to descriptor. -/
inductive FieldList : Type where
  | nil : FieldList
  | cons : String → FieldInfo → FieldList → FieldList

/-- A pydantic model class inheriting `PartialModelMixin`: its `__name__`
and its `model_fields`. -/
inductive Model : Type where
  | mk : String → FieldList → Model

end

deriving instance DecidableEq for Ann
deriving instance DecidableEq for AnnList
deriving instance DecidableEq for OptAnn
deriving instance DecidableEq for FieldInfo
deriving instance DecidableEq for FieldList
deriving instance DecidableEq for Model

/-- The annotation stored in a field descriptor.
Modelled from the spec: `PydanticCompat.get_model_field_info_annotation`
(the `_compat` module is not under the verified sources) returns the field
descriptor's type annotation, absent (`None`) when unresolvable. -/
def FieldInfo.ann : FieldInfo → OptAnn
  | .mk a _ _ _ => a

/-- The default value stored in a field descriptor. -/
def FieldInfo.default : FieldInfo → Default
  | .mk _ d _ _ => d

/-- Whether the field descriptor carries a default_factory. -/
def FieldInfo.hasFactory : FieldInfo → Bool
  | .mk _ _ f _ => f

/-- The nullability-constraint flag of the field descriptor. -/
def FieldInfo.nullable : FieldInfo → Bool
  | .mk _ _ _ nu => nu

/-- Modelled from the spec: `PydanticCompat.is_model_field_info_required`
(the `_compat` module is not under the verified sources).  A pydantic field
is required iff it has neither a default value nor a default_factory. -/
def isRequiredFI (fi : FieldInfo) : Bool :=
  decide (fi.default = Default.undefined) && !fi.hasFactory

/-- Modelled from the spec: `PydanticCompat.copy_model_field_info`
(the `_compat` module is not under the verified sources) copies a field
descriptor with selected attributes — default, default-factory presence,
nullability — optionally overridden (`none` = keep the original value). -/
def copyFieldInfo (fi : FieldInfo) (d : Option Default) (f : Option Bool)
    (nu : Option Bool) : FieldInfo :=
  match fi with
  | .mk a d0 f0 nu0 => .mk a (d.getD d0) (f.getD f0) (nu.getD nu0)

/-- The model class name (`__name__`). -/
def Model.name : Model → String
  | .mk n _ => n

/-- The ordered field mapping of the model (`model_fields`). -/
def Model.fields : Model → FieldList
  | .mk _ fl => fl

/-- The names of the fields, in declaration order
(`model_compat.model_fields.keys()`). -/
def fieldNames : FieldList → List String
  | .nil => []
  | .cons n _ rest => n :: fieldNames rest

/-- First field descriptor stored under a name (dictionary access into
`model_fields`). -/
def lookupField : FieldList → String → Option FieldInfo
  | .nil, _ => none
  | .cons n' fi rest, n => if n' = n then some fi else lookupField rest n

/-- Python `str.startswith`, on the character sequence. -/
def strStartsWith (s pre : String) : Bool :=
  pre.data.isPrefixOf s.data

/-- Python `str.removeprefix`: drop `pre` from the front of `s` when it is
a prefix, otherwise return `s` unchanged. -/
def stripPre (pre s : String) : String :=
  if pre.data.isPrefixOf s.data then ⟨s.data.drop pre.data.length⟩ else s

/-- `any(field.startswith(field_name + ".") for field in fields_)`. -/
def subFieldsRequested (sel : List String) (n : String) : Bool :=
  sel.any (fun f => strStartsWith f (n ++ "."))

/-- `[field.removeprefix(field_name + ".") for field in fields_ if
field.startswith(field_name + ".")]`. -/
def childrenSel (sel : List String) (n : String) : List String :=
  (sel.filter (fun f => strStartsWith f (n ++ "."))).map
    (fun f => stripPre (n ++ ".") f)

/-- Does an annotation-argument list contain a given annotation
(`typing.Union` member dedup test)? -/
def annListContains : AnnList → Ann → Bool
  | .nil, _ => false
  | .cons a rest, b => a = b || annListContains rest b

/-- Append `NoneType` to a union's argument list. -/
def snocNone : AnnList → AnnList
  | .nil => .cons .noneType .nil
  | .cons a rest => .cons a (snocNone rest)

/-- `typing.Optional[a]` = `Union[a, None]`, with Python's union
normalization: a union is flattened into the new union and `NoneType` is
not duplicated; `Optional[None]` is `NoneType` itself. -/
def mkOptional (a : Ann) : Ann :=
  match a with
  | .noneType => .noneType
  | .union args =>
      if annListContains args .noneType then .union args
      else .union (snocNone args)
  | other => .union (.cons other (.cons .noneType .nil))

/-- Replace the annotation of a field descriptor (the annotation part of a
`pydantic.create_model` field override tuple). -/
def withAnn (fi : FieldInfo) (a : Ann) : FieldInfo :=
  match fi with
  | .mk _ d f nu => .mk (.resolved a) d f nu

/-- Lookup in the accumulated `optional_fields` override mapping. -/
def lookupOv : List (String × Ann × FieldInfo) → String → Option (Ann × FieldInfo)
  | [], _ => none
  | (n', ov) :: rest, n => if n' = n then some ov else lookupOv rest n

/-- `pydantic.create_model(..., __base__=base_cls, **optional_fields)`:
the subclass keeps the base field order, replacing overridden descriptors
in place (each override supplies the new annotation and descriptor). -/
def applyOverrides (fl : FieldList) (ovs : List (String × Ann × FieldInfo)) : FieldList :=
  match fl with
  | .nil => .nil
  | .cons n fi rest =>
      match lookupOv ovs n with
      | some (a, fi') => .cons n (withAnn fi' a) (applyOverrides rest ovs)
      | none => .cons n fi (applyOverrides rest ovs)

/-- The effective selector list: `fields_ = list(fields) if fields else
list(model_compat.model_fields.keys())`. -/
def effSel (m : Model) (fields : List String) : List String :=
  if fields.isEmpty then fieldNames m.fields else fields

mutual

/-- `create_partial_model(base_cls, *fields, recursive=recursive)`:
the derivation engine of `pydantic_partial.partial`. -/
def createPartialModel (m : Model) (fields : List String) (r : Bool) : Model :=
  match m with
  | .mk name fl =>
      let sel := if fields.isEmpty then fieldNames fl else fields
      let ovs := processFields fl sel r
      if ovs.isEmpty then .mk name fl
      else .mk (name ++ "Partial") (applyOverrides fl ovs)

/-- The per-field loop of `create_partial_model`, accumulating the
`optional_fields` override mapping in declaration order. -/
def processFields (fl : FieldList) (sel : List String) (r : Bool) :
    List (String × Ann × FieldInfo) :=
  match fl with
  | .nil => []
  | .cons n fi rest =>
      match fieldOverride sel r n fi with
      | some ov => (n, ov) :: processFields rest sel r
      | none => processFields rest sel r

/-- The body of the per-field loop: the override emitted for one field
(`none` = `continue`, no entry in `optional_fields`). -/
def fieldOverride (sel : List String) (r : Bool) (n : String) (fi : FieldInfo) :
    Option (Ann × FieldInfo) :=
  match fi with
  | .mk .unresolved _ _ _ => none
  | .mk (.resolved a0) d hf nu =>
      let sfr := subFieldsRequested sel n
      if !sel.contains n && !sfr then none
      else
        let a := if r || sfr then rewriteAnn sel r n a0 else a0
        if sel.contains n then
          if isRequiredFI (.mk (.resolved a0) d hf nu) then
            some (mkOptional a,
                  copyFieldInfo (.mk (.resolved a0) d hf nu)
                    (some Default.noneD) (some false) (some true))
          else none
        else if r || sfr then
          some (a, copyFieldInfo (.mk (.resolved a0) d hf nu) none none none)
        else none

/-- The `recursive or sub_fields_requested` annotation rewrite: rebuild a
`Union`/`list`/`tuple`/`dict` origin with each argument passed through
`_partial_annotation_arg`; pass any other annotation through
`_partial_annotation_arg` whole (the `.model` case is that function's body
inlined here, so that the mutual recursion is structural). -/
def rewriteAnn (sel : List String) (r : Bool) (n : String) (a : Ann) : Ann :=
  match a with
  | .union args => .union (mapAnnList sel r n args)
  | .listC args => .listC (mapAnnList sel r n args)
  | .tupleC args => .tupleC (mapAnnList sel r n args)
  | .dictC args => .dictC (mapAnnList sel r n args)
  | .model u =>
      let cs := childrenSel sel n
      let cs := if cs = ["*"] then [] else cs
      .model (createPartialModel u cs r)
  | other => other

/-- Map `_partial_annotation_arg` over an annotation-argument list. -/
def mapAnnList (sel : List String) (r : Bool) (n : String) (args : AnnList) : AnnList :=
  match args with
  | .nil => .nil
  | .cons a rest => .cons (partialAnnArg sel r n a) (mapAnnList sel r n rest)

/-- `_partial_annotation_arg(field_name_, field_annotation)`: when the
annotation is a derivable model class, derive it with the child selectors
(the selectors under `field_name_ + "."`, a lone `"*"` becoming the empty
list); otherwise leave it unchanged. -/
def partialAnnArg (sel : List String) (r : Bool) (n : String) (a : Ann) : Ann :=
  match a with
  | .model u =>
      let cs := childrenSel sel n
      let cs := if cs = ["*"] then [] else cs
      .model (createPartialModel u cs r)
  | other => other

end

/-- The process-wide `functools.lru_cache` state of `create_partial_model`:
argument triples already computed, with their derived model. -/
abbrev CacheState : Type := List ((Model × List String × Bool) × Model)

/-- Lookup of an argument triple in the cache. -/
def cacheFind : CacheState → (Model × List String × Bool) → Option Model
  | [], _ => none
  | (k', v) :: rest, k => if k' = k then some v else cacheFind rest k

/-- Result of one call through the memoized entry point: the model
returned, the cache afterwards, and whether the underlying engine ran. -/
structure CallResult : Type where
  result : Model
  cache : CacheState
  computed : Bool
deriving DecidableEq

/-- One call of the `lru_cache`-wrapped `create_partial_model`: on a cache
hit return the stored object without running the engine; on a miss run the
engine once and store the result. -/
def cachedCreate (c : CacheState) (m : Model) (sel : List String) (r : Bool) :
    CallResult :=
  match cacheFind c (m, sel, r) with
  | some v => ⟨v, c, false⟩
  | none =>
      let v := createPartialModel m sel r
      ⟨v, ((m, sel, r), v) :: c, true⟩

/-- `PartialModelMixin.as_partial(*fields, recursive=recursive)`: forwards
its arguments unchanged to the cached `create_partial_model`. -/
def asPartial (c : CacheState) (m : Model) (sel : List String) (r : Bool) :
    CallResult :=
  cachedCreate c m sel r

/-! ## Derived predicates on field mappings -/

/-- Every field of the mapping is already optional (or has an unresolvable
annotation, in which case the engine never touches it). -/
def AllOptional : FieldList → Prop
  | .nil => True
  | .cons _ fi rest =>
      (fi.ann = .unresolved ∨ isRequiredFI fi = false) ∧ AllOptional rest

instance instDecAllOptional : ∀ fl : FieldList, Decidable (AllOptional fl)
  | .nil => .isTrue trivial
  | .cons _ _ rest =>
      @instDecidableAnd _ _ _ (instDecAllOptional rest)

/-- Every field that got no override in the mapping `ovs` is already
optional (used to propagate optionality through `applyOverrides`). -/
def OptWhenNoOv (ovs : List (String × Ann × FieldInfo)) : FieldList → Prop
  | .nil => True
  | .cons n fi rest =>
      (lookupOv ovs n = none → (fi.ann = .unresolved ∨ isRequiredFI fi = false)) ∧
      OptWhenNoOv ovs rest

/-! ## Concrete example models (used as witnesses) -/

/-- The annotation `int`. -/
def intAnn : Ann := Ann.base "int"

/-- The annotation `str`. -/
def strAnn : Ann := Ann.base "str"

/-- A required field descriptor: resolvable annotation, no default, no
default_factory, no nullability flag. -/
def reqFI (a : Ann) : FieldInfo :=
  .mk (.resolved a) .undefined false false

/-- `class User(PartialModelMixin, BaseModel): name: str; age: int`. -/
def exUser : Model :=
  .mk "User" (.cons "name" (reqFI strAnn) (.cons "age" (reqFI intAnn) .nil))

/-- A model with a required `name: str` and an already-optional
`flag: int = 5`. -/
def exTagged : Model :=
  .mk "Tagged" (.cons "name" (reqFI strAnn)
    (.cons "flag" (.mk (.resolved intAnn) (.value 5) false false) .nil))

/-- `class Address(PartialModelMixin, BaseModel): city: str`. -/
def exAddress : Model :=
  .mk "Address" (.cons "city" (reqFI strAnn) .nil)

/-- A model with a required model-typed field `child: Address`. -/
def exOrder : Model :=
  .mk "Order" (.cons "child" (reqFI (.model exAddress)) .nil)

/-- A model whose model-typed field `child: Address` is already optional,
with a non-`None` default. -/
def exProfile : Model :=
  .mk "Profile" (.cons "child"
    (.mk (.resolved (.model exAddress)) (.value 7) false false) .nil)

/-! ## Well-formedness of embedded models

Python guarantees two facts about any real pydantic model that the raw
`FieldList` embedding does not enforce: `model_fields` is a dict, so field
names are pairwise distinct, and field names are Python identifiers, so
they contain no `"."`. -/

/-- The field names are pairwise distinct (`model_fields` is a dict). -/
def NodupNames (fl : FieldList) : Prop := (fieldNames fl).Nodup

/-- No field name contains a dot (field names are Python identifiers). -/
def NoDotNames (fl : FieldList) : Prop :=
  ∀ n ∈ fieldNames fl, ('.' : Char) ∉ n.data

instance (fl : FieldList) : Decidable (NodupNames fl) := by
  unfold NodupNames; infer_instance

instance (fl : FieldList) : Decidable (NoDotNames fl) := by
  unfold NoDotNames; infer_instance

/-- Structural induction on a field mapping (the mutual recursor of the
`Ann`/`Model` family specialised to a motive on `FieldList` alone). -/
theorem fieldListInd {P : FieldList → Prop} (hnil : P .nil)
    (hcons : ∀ n fi rest, P rest → P (.cons n fi rest)) :
    ∀ fl : FieldList, P fl
  | .nil => hnil
  | .cons n fi rest => hcons n fi rest (fieldListInd hnil hcons rest)

/-! ## String facts about dotted selectors -/

/-- A string without a dot never starts with `n ++ "."`. -/
theorem strStartsWith_dot_eq_false (f n : String) (hf : ('.' : Char) ∉ f.data) :
    strStartsWith f (n ++ ".") = false := by
  unfold strStartsWith
  rw [String.data_append n "."]
  by_contra h
  rw [Bool.not_eq_false, List.isPrefixOf_iff_prefix] at h
  exact hf (h.subset (List.mem_append_right n.data (by decide)))

/-- Dotless selectors never request sub-fields. -/
theorem subFieldsRequested_eq_false (sel : List String) (n : String)
    (h : ∀ f ∈ sel, ('.' : Char) ∉ f.data) :
    subFieldsRequested sel n = false := by
  unfold subFieldsRequested
  rw [List.any_eq_false]
  intro f hf
  simp [strStartsWith_dot_eq_false f n (h f hf)]

/-- Dotless selectors produce no child selectors. -/
theorem childrenSel_eq_nil (sel : List String) (n : String)
    (h : ∀ f ∈ sel, ('.' : Char) ∉ f.data) :
    childrenSel sel n = [] := by
  unfold childrenSel
  rw [List.map_eq_nil_iff, List.filter_eq_nil_iff]
  intro f hf
  rw [strStartsWith_dot_eq_false f n (h f hf)]
  exact Bool.false_ne_true

/-- A name is never equal to its own dotted extension. -/
theorem ne_append_dot (n s : String) : n ≠ n ++ ("." ++ s) := by
  intro h
  have := congrArg (fun t => t.data.length) h
  simp only [String.data_append] at this
  simp at this

/-- `n ++ "." ++ s` starts with `n ++ "."`. -/
theorem strStartsWith_append (n s : String) :
    strStartsWith (n ++ ("." ++ s)) (n ++ ".") = true := by
  unfold strStartsWith
  rw [ List.isPrefixOf_iff_prefix]
  refine ⟨s.data, ?_⟩
  rw [String.data_append, String.data_append, String.data_append]
  simp

/-- Python `removeprefix` recovers the suffix of a dotted selector. -/
theorem stripPre_append (n s : String) :
    stripPre (n ++ ".") (n ++ ("." ++ s)) = s := by
  unfold stripPre
  rw [if_pos]
  · apply String.ext
    show ((n ++ ("." ++ s)).data.drop (n ++ ".").data.length) = s.data
    rw [String.data_append, String.data_append, String.data_append]
    rw [← List.append_assoc, List.drop_append_eq_append_drop]
    simp [String.data_append]
  · exact strStartsWith_append n s

/-! ## Lookup lemmas for the per-field loop -/

/-- A name appearing in a field mapping appears among its names. -/
theorem mem_fieldNames_of_lookup {fl : FieldList} {n : String} {fi : FieldInfo}
    (h : lookupField fl n = some fi) : n ∈ fieldNames fl := by
  induction fl using fieldListInd with
  | hnil => simp [lookupField] at h
  | hcons n' fi' rest ih =>
      by_cases hn : n' = n
      · simp [fieldNames, hn]
      · simp only [lookupField, if_neg hn] at h
        exact List.mem_cons_of_mem n' (ih h)

theorem lookupField_cons (n' : String) (fi : FieldInfo) (rest : FieldList)
    (n : String) :
    lookupField (.cons n' fi rest) n =
      if n' = n then some fi else lookupField rest n := rfl

theorem lookupOv_cons (n' : String) (ov : Ann × FieldInfo)
    (rest : List (String × Ann × FieldInfo)) (n : String) :
    lookupOv ((n', ov) :: rest) n =
      if n' = n then some ov else lookupOv rest n := rfl

theorem processFields_cons (n : String) (fi : FieldInfo) (rest : FieldList)
    (sel : List String) (r : Bool) :
    processFields (.cons n fi rest) sel r =
      match fieldOverride sel r n fi with
      | some ov => (n, ov) :: processFields rest sel r
      | none => processFields rest sel r := by
  simp [processFields]

/-- The override mapping only holds names of the processed fields. -/
theorem lookupOv_processFields_of_not_mem (fl : FieldList) (sel : List String)
    (r : Bool) (n : String) (h : n ∉ fieldNames fl) :
    lookupOv (processFields fl sel r) n = none := by
  induction fl using fieldListInd with
  | hnil => rfl
  | hcons n' fi rest ih =>
      simp only [fieldNames, List.mem_cons, not_or] at h
      rw [processFields_cons]
      cases hov : fieldOverride sel r n' fi with
      | none => exact ih h.2
      | some ov =>
          rw [lookupOv_cons, if_neg (fun hh => h.1 hh.symm)]
          exact ih h.2

/-- With distinct field names, the override emitted for a name is exactly
the one `fieldOverride` computes from that name's descriptor. -/
theorem lookupOv_processFields (fl : FieldList) (sel : List String) (r : Bool)
    (n : String) (hnd : NodupNames fl) :
    lookupOv (processFields fl sel r) n =
      (lookupField fl n).bind (fieldOverride sel r n) := by
  induction fl using fieldListInd with
  | hnil => rfl
  | hcons n' fi rest ih =>
      have hnd' : NodupNames rest := (List.nodup_cons.mp hnd).2
      have hnotmem : n' ∉ fieldNames rest := (List.nodup_cons.mp hnd).1
      rw [processFields_cons, lookupField_cons]
      by_cases hn : n' = n
      · subst hn
        rw [if_pos rfl, Option.some_bind]
        cases hov : fieldOverride sel r n' fi with
        | none => exact lookupOv_processFields_of_not_mem rest sel r n' hnotmem
        | some ov => rw [lookupOv_cons, if_pos rfl]
      · rw [if_neg hn]
        cases hov : fieldOverride sel r n' fi with
        | none => exact ih hnd'
        | some ov =>
            rw [lookupOv_cons, if_neg hn]
            exact ih hnd'

/-- Looking up a field of the synthesized subclass: the base descriptor,
with the override applied when one was emitted for that name. -/
theorem lookupField_applyOverrides (fl : FieldList)
    (ovs : List (String × Ann × FieldInfo)) (n : String) :
    lookupField (applyOverrides fl ovs) n =
      (lookupField fl n).map (fun fi =>
        match lookupOv ovs n with
        | some (a, fi') => withAnn fi' a
        | none => fi) := by
  induction fl using fieldListInd with
  | hnil => rfl
  | hcons n' fi rest ih =>
      simp only [applyOverrides]
      rcases h : lookupOv ovs n' with _ | ⟨a, fi'⟩ <;>
        simp only [lookupField] <;>
        by_cases hn : n' = n <;>
        simp_all [lookupField]

/-- The central description of the derived model: with distinct field
names, looking up any base field in `create_partial_model`'s result gives
the base descriptor, transformed by exactly the override `fieldOverride`
emits for it (none emitted: unchanged — also when the base class itself is
returned). -/
theorem lookupField_createPartialModel (m : Model) (fields : List String)
    (r : Bool) (n : String) (fi : FieldInfo)
    (hnd : NodupNames m.fields) (hlk : lookupField m.fields n = some fi) :
    lookupField (createPartialModel m fields r).fields n =
      some (match fieldOverride (effSel m fields) r n fi with
            | some (a, fi') => withAnn fi' a
            | none => fi) := by
  cases m with
  | mk name fl =>
      simp only [Model.fields] at hnd hlk ⊢
      simp only [effSel, Model.fields]
      simp only [createPartialModel]
      have hov := lookupOv_processFields fl
        (if fields.isEmpty then fieldNames fl else fields) r n hnd
      rw [hlk, Option.some_bind] at hov
      by_cases he :
          (processFields fl (if fields.isEmpty then fieldNames fl else fields) r).isEmpty
      · rw [if_pos he]
        simp only [Model.fields]
        rw [List.isEmpty_iff.mp he] at hov
        rw [← hov]
        exact hlk
      · rw [if_neg he]
        simp only [Model.fields]
        rw [lookupField_applyOverrides, hlk, hov]
        rfl

/-! ## Case analysis of the emitted override -/

/-- Fields with an unresolvable annotation are skipped
(`field_annotation is None: continue`). -/
theorem fieldOverride_unresolved (sel : List String) (r : Bool) (n : String)
    (d : Default) (hf nu : Bool) :
    fieldOverride sel r n (.mk .unresolved d hf nu) = none := rfl

/-- A field neither selected by name nor targeted through a dotted
selector is skipped. -/
theorem fieldOverride_skip (sel : List String) (r : Bool) (n : String)
    (fi : FieldInfo) (hc : sel.contains n = false)
    (hs : subFieldsRequested sel n = false) :
    fieldOverride sel r n fi = none := by
  cases fi with
  | mk oa d hf nu =>
      cases oa with
      | unresolved => rfl
      | resolved a0 =>
          have hc' : n ∉ sel := by simpa using hc
          simp [fieldOverride, hc', hs]

/-- A name-selected required field gets the required→optional override:
nullable union around the (possibly rewritten) annotation, default `None`,
default_factory cleared, nullability flag set. -/
theorem fieldOverride_selected_required (sel : List String) (r : Bool)
    (n : String) (fi : FieldInfo) (a0 : Ann) (hc : sel.contains n = true)
    (ha : fi.ann = .resolved a0) (hreq : isRequiredFI fi = true) :
    fieldOverride sel r n fi =
      some (mkOptional
              (if r || subFieldsRequested sel n then rewriteAnn sel r n a0 else a0),
            .mk (.resolved a0) Default.noneD false true) := by
  cases fi with
  | mk oa d hf nu =>
      cases oa with
      | unresolved => simp [FieldInfo.ann] at ha
      | resolved a1 =>
          simp only [FieldInfo.ann, OptAnn.resolved.injEq] at ha
          subst ha
          simp only [isRequiredFI, FieldInfo.default, FieldInfo.hasFactory,
            Bool.and_eq_true, Bool.not_eq_true', decide_eq_true_eq] at hreq
          obtain ⟨hd, hhf⟩ := hreq
          subst hd hhf
          have hc' : n ∈ sel := by simpa using hc
          simp [fieldOverride, hc', isRequiredFI, FieldInfo.default,
            FieldInfo.hasFactory, copyFieldInfo]

/-- A name-selected field that is already optional gets no override at
all, even when `recursive` is set or sub-fields are requested: the
`elif` branch is unreachable for name-selected fields. -/
theorem fieldOverride_selected_optional (sel : List String) (r : Bool)
    (n : String) (fi : FieldInfo) (hc : sel.contains n = true)
    (hreq : isRequiredFI fi = false) :
    fieldOverride sel r n fi = none := by
  cases fi with
  | mk oa d hf nu =>
      cases oa with
      | unresolved => rfl
      | resolved a0 =>
          have hc' : n ∈ sel := by simpa using hc
          simp [fieldOverride, hc', hreq]

/-- `copy_model_field_info` with no attribute overridden is the identity
copy. -/
theorem copyFieldInfo_id (fi : FieldInfo) :
    copyFieldInfo fi none none none = fi := by
  cases fi with
  | mk oa d hf nu => rfl

/-- A field reached only through a dotted selector (not selected by its
bare name) keeps its descriptor; only its annotation is rewritten. -/
theorem fieldOverride_sub_only (sel : List String) (r : Bool) (n : String)
    (fi : FieldInfo) (a0 : Ann) (hc : sel.contains n = false)
    (hs : subFieldsRequested sel n = true) (ha : fi.ann = .resolved a0) :
    fieldOverride sel r n fi = some (rewriteAnn sel r n a0, fi) := by
  cases fi with
  | mk oa d hf nu =>
      cases oa with
      | unresolved => simp [FieldInfo.ann] at ha
      | resolved a1 =>
          simp only [FieldInfo.ann, OptAnn.resolved.injEq] at ha
          subst ha
          have hc' : n ∉ sel := by simpa using hc
          simp [fieldOverride, hc', hs, copyFieldInfo]

/-! ## Identity passthrough -/

/-- When every field is skipped, no override is accumulated. -/
theorem processFields_eq_nil_of_skip (fl : FieldList) (sel : List String)
    (r : Bool)
    (h : ∀ n ∈ fieldNames fl,
      sel.contains n = false ∧ subFieldsRequested sel n = false) :
    processFields fl sel r = [] := by
  induction fl using fieldListInd with
  | hnil => rfl
  | hcons n fi rest ih =>
      have hn := h n (by simp [fieldNames])
      rw [processFields_cons, fieldOverride_skip sel r n fi hn.1 hn.2]
      exact ih (fun n' hn' => h n' (List.mem_cons_of_mem n hn'))

/-- With a nonempty selector list that matches no field (by name or as a
dotted prefix), `create_partial_model` returns the base class itself. -/
theorem createPartialModel_id (m : Model) (fields : List String) (r : Bool)
    (hne : fields ≠ [])
    (h : ∀ n ∈ fieldNames m.fields,
      fields.contains n = false ∧ subFieldsRequested fields n = false) :
    createPartialModel m fields r = m := by
  cases m with
  | mk name fl =>
      simp only [Model.fields] at h
      cases fields with
      | nil => exact absurd rfl hne
      | cons f fs =>
          simp only [createPartialModel, List.isEmpty_cons, Bool.false_eq_true,
            if_false]
          rw [processFields_eq_nil_of_skip fl (f :: fs) r h]
          rfl


/-! ## Optionality propagation (full derivation yields only optional fields) -/

/-- Replacing the annotation does not change requiredness. -/
theorem isRequiredFI_withAnn (fi : FieldInfo) (a : Ann) :
    isRequiredFI (withAnn fi a) = isRequiredFI fi := by
  cases fi with
  | mk oa d hf nu => rfl

theorem contains_of_mem_names {l : List String} {n : String} (h : n ∈ l) :
    l.contains n = true := by
  simpa using h

/-- A name-selected field that got no override was already optional. -/
theorem optional_of_fieldOverride_none (sel : List String) (r : Bool)
    (n : String) (fi : FieldInfo) (hc : sel.contains n = true)
    (h : fieldOverride sel r n fi = none) :
    fi.ann = .unresolved ∨ isRequiredFI fi = false := by
  cases fi with
  | mk oa d hf nu =>
      cases oa with
      | unresolved => exact Or.inl rfl
      | resolved a0 =>
          right
          by_contra hreq
          rw [Bool.not_eq_false] at hreq
          rw [fieldOverride_selected_required sel r n
            (FieldInfo.mk (.resolved a0) d hf nu) a0 hc rfl hreq] at h
          exact Option.noConfusion h

/-- An override emitted for a name-selected field is never required. -/
theorem override_optional_of_contains (sel : List String) (r : Bool)
    (n : String) (fi : FieldInfo) (a : Ann) (fi' : FieldInfo)
    (hc : sel.contains n = true)
    (h : fieldOverride sel r n fi = some (a, fi')) :
    isRequiredFI fi' = false := by
  cases fi with
  | mk oa d hf nu =>
      cases oa with
      | unresolved => exact Option.noConfusion h
      | resolved a0 =>
          by_cases hreq : isRequiredFI (FieldInfo.mk (.resolved a0) d hf nu) = true
          · rw [fieldOverride_selected_required sel r n
              (FieldInfo.mk (.resolved a0) d hf nu) a0 hc rfl hreq] at h
            simp only [Option.some.injEq, Prod.mk.injEq] at h
            rw [← h.2]
            rfl
          · rw [fieldOverride_selected_optional sel r n _ hc
              (by simpa using hreq)] at h
            exact Option.noConfusion h

/-- Overrides accumulated from all-selected fields are never required. -/
theorem lookupOv_processFields_optional (fl : FieldList) (sel : List String)
    (r : Bool) (hsel : ∀ n ∈ fieldNames fl, sel.contains n = true) :
    ∀ (n : String) (a : Ann) (fi' : FieldInfo),
      lookupOv (processFields fl sel r) n = some (a, fi') →
      isRequiredFI fi' = false := by
  induction fl using fieldListInd with
  | hnil => intro n a fi' h; exact Option.noConfusion h
  | hcons n0 fi rest ih =>
      intro n a fi' h
      have hsel' : ∀ n' ∈ fieldNames rest, sel.contains n' = true :=
        fun n' hn' => hsel n' (List.mem_cons_of_mem n0 hn')
      rw [processFields_cons] at h
      cases hov : fieldOverride sel r n0 fi with
      | none =>
          simp only [hov] at h
          exact ih hsel' n a fi' h
      | some ov =>
          simp only [hov, lookupOv_cons] at h
          by_cases hn : n0 = n
          · rw [if_pos hn] at h
            injection h with h1
            rw [h1] at hov
            exact override_optional_of_contains sel r n0 fi a fi'
              (hsel n0 (by simp [fieldNames])) hov
          · rw [if_neg hn] at h
            exact ih hsel' n a fi' h

/-- Dropping the head field can only remove override entries. -/
theorem lookupOv_processFields_cons_none (n0 : String) (fi : FieldInfo)
    (rest : FieldList) (sel : List String) (r : Bool) (n : String)
    (h : lookupOv (processFields (.cons n0 fi rest) sel r) n = none) :
    lookupOv (processFields rest sel r) n = none := by
  rw [processFields_cons] at h
  cases hov : fieldOverride sel r n0 fi with
  | none => simpa [hov] using h
  | some ov =>
      simp only [hov, lookupOv_cons] at h
      by_cases hn : n0 = n
      · rw [if_pos hn] at h
        exact Option.noConfusion h
      · rwa [if_neg hn] at h

/-- Fields whose name is missing from the accumulated overrides were
already optional (when every field is selected). -/
theorem optWhenNoOv_processFields (fl : FieldList) (sel : List String)
    (r : Bool) (ovs : List (String × Ann × FieldInfo))
    (hsel : ∀ n ∈ fieldNames fl, sel.contains n = true)
    (hmono : ∀ n, lookupOv ovs n = none →
      lookupOv (processFields fl sel r) n = none) :
    OptWhenNoOv ovs fl := by
  induction fl using fieldListInd with
  | hnil => trivial
  | hcons n0 fi rest ih =>
      refine ⟨?_, ?_⟩
      · intro hnone
        have h0 := hmono n0 hnone
        rw [processFields_cons] at h0
        cases hov : fieldOverride sel r n0 fi with
        | none =>
            exact optional_of_fieldOverride_none sel r n0 fi
              (hsel n0 (by simp [fieldNames])) hov
        | some ov =>
            simp [hov, lookupOv_cons] at h0
      · exact ih (fun n' h' => hsel n' (List.mem_cons_of_mem n0 h'))
          (fun n hn => lookupOv_processFields_cons_none n0 fi rest sel r n
            (hmono n hn))

/-- Applying only non-required overrides to already-optional-or-overridden
fields yields an all-optional mapping. -/
theorem allOptional_applyOverrides (fl : FieldList)
    (ovs : List (String × Ann × FieldInfo))
    (hovs : ∀ (n : String) (a : Ann) (fi' : FieldInfo),
      lookupOv ovs n = some (a, fi') → isRequiredFI fi' = false)
    (hfl : OptWhenNoOv ovs fl) :
    AllOptional (applyOverrides fl ovs) := by
  induction fl using fieldListInd with
  | hnil => trivial
  | hcons n fi rest ih =>
      obtain ⟨h1, h2⟩ := hfl
      simp only [applyOverrides]
      cases hov : lookupOv ovs n with
      | none => exact ⟨h1 hov, ih h2⟩
      | some ov =>
          cases ov with
          | mk a fi' =>
              refine ⟨Or.inr ?_, ih h2⟩
              rw [isRequiredFI_withAnn]
              exact hovs n a fi' hov

/-- When no override came out although every field was selected, every
field was already optional. -/
theorem allOptional_of_processFields_nil (fl : FieldList) (sel : List String)
    (r : Bool) (hsel : ∀ n ∈ fieldNames fl, sel.contains n = true)
    (h : processFields fl sel r = []) : AllOptional fl := by
  induction fl using fieldListInd with
  | hnil => trivial
  | hcons n fi rest ih =>
      rw [processFields_cons] at h
      cases hov : fieldOverride sel r n fi with
      | some ov =>
          simp only [hov] at h
          exact absurd h (List.cons_ne_nil _ _)
      | none =>
          simp only [hov] at h
          exact ⟨optional_of_fieldOverride_none sel r n fi
              (hsel n (by simp [fieldNames])) hov,
            ih (fun n' h' => hsel n' (List.mem_cons_of_mem n h')) h⟩

/-- All-optional fields produce no overrides when every field is
selected. -/
theorem processFields_eq_nil_of_optional (fl : FieldList) (sel : List String)
    (r : Bool) (hopt : AllOptional fl)
    (hsel : ∀ n ∈ fieldNames fl, sel.contains n = true) :
    processFields fl sel r = [] := by
  induction fl using fieldListInd with
  | hnil => rfl
  | hcons n fi rest ih =>
      obtain ⟨h1, h2⟩ := hopt
      rw [processFields_cons]
      have hov : fieldOverride sel r n fi = none := by
        rcases h1 with h1 | h1
        · cases fi with
          | mk oa d hf nu =>
              cases oa with
              | unresolved => rfl
              | resolved a0 => simp [FieldInfo.ann] at h1
        · exact fieldOverride_selected_optional sel r n fi
            (hsel n (by simp [fieldNames])) h1
      rw [hov]
      exact ih h2 (fun n' h' => hsel n' (List.mem_cons_of_mem n h'))

/-- A model whose fields are all optional is returned unchanged by a full
non-recursive derivation. -/
theorem createPartialModel_eq_self_of_optional (P : Model)
    (h : AllOptional P.fields) : createPartialModel P [] false = P := by
  cases P with
  | mk name fl =>
      simp only [Model.fields] at h
      simp only [createPartialModel, List.isEmpty_nil, if_true]
      rw [processFields_eq_nil_of_optional fl (fieldNames fl) false h
        (fun n hn => contains_of_mem_names hn)]
      rfl

/-- The model produced by a full non-recursive derivation has only
optional fields. -/
theorem allOptional_createPartialModel (T : Model) :
    AllOptional (createPartialModel T [] false).fields := by
  cases T with
  | mk name fl =>
      simp only [createPartialModel, List.isEmpty_nil, if_true]
      have hsel : ∀ n ∈ fieldNames fl, (fieldNames fl).contains n = true :=
        fun n hn => contains_of_mem_names hn
      by_cases he : (processFields fl (fieldNames fl) false).isEmpty
      · rw [if_pos he]
        simp only [Model.fields]
        exact allOptional_of_processFields_nil fl (fieldNames fl) false hsel
          (List.isEmpty_iff.mp he)
      · rw [if_neg he]
        simp only [Model.fields]
        exact allOptional_applyOverrides fl _
          (lookupOv_processFields_optional fl (fieldNames fl) false hsel)
          (optWhenNoOv_processFields fl (fieldNames fl) false _ hsel
            (fun n hn => hn))


/-! ## Claims -/

/-- **C1.** For every base model type, selector tuple and recursion flag,
two calls of the memoized `create_partial_model` (reached through
`as_partial`, which forwards unchanged) with identical arguments return
the identical derived-type object: the second call is answered straight
from the cache — the engine is not run again (computed at most once per
process) and the cache is left unchanged, so the very object stored by the
first call is returned. -/
theorem claim1_cache_returns_identical_object (c : CacheState) (m : Model)
    (sel : List String) (r : Bool) :
    (asPartial (asPartial c m sel r).cache m sel r).result
        = (asPartial c m sel r).result ∧
    (asPartial (asPartial c m sel r).cache m sel r).computed = false ∧
    (asPartial (asPartial c m sel r).cache m sel r).cache
        = (asPartial c m sel r).cache := by
  unfold asPartial cachedCreate
  cases hf : cacheFind c (m, sel, r) with
  | some v => simp [hf]
  | none => simp [hf, cacheFind]

/-- **C9.** The nested rewrite of a compound annotation rebuilds only
annotations whose origin is `Union`, `list`, `tuple` or `dict` (mapping
`_partial_annotation_arg` over the argument list); an annotation with any
other parametrized origin — e.g. a `set` of a derivable model type — is
left entirely unchanged, for every selector list, recursion flag and field
name (in particular with `recursive=True` or with sub-fields requested for
the field). -/
theorem claim9_other_containers_unchanged (sel : List String) (r : Bool)
    (n : String) (args : AnnList) :
    rewriteAnn sel r n (Ann.otherC args) = Ann.otherC args ∧
    rewriteAnn sel r n (Ann.union args) = Ann.union (mapAnnList sel r n args) ∧
    rewriteAnn sel r n (Ann.listC args) = Ann.listC (mapAnnList sel r n args) ∧
    rewriteAnn sel r n (Ann.tupleC args) = Ann.tupleC (mapAnnList sel r n args) ∧
    rewriteAnn sel r n (Ann.dictC args) = Ann.dictC (mapAnnList sel r n args) :=
  ⟨rfl, rfl, rfl, rfl, rfl⟩

/-- **C6 (counterexample).** A dotted selector whose prefix names an
existing field but whose nested path does not exist is *not* silently
ignored: `derive(User, "name.x")` (with `name: str`, so the nested path
`name.x` exists in no sense) emits a passthrough override for `name` and
returns a fresh `UserPartial` subclass — not `User` itself. -/
theorem claim6_counterexample :
    createPartialModel exUser ["name.x"] false ≠ exUser ∧
    createPartialModel exUser ["name.x"] false
      = Model.mk "UserPartial" exUser.fields := by decide

/-- **C6 (amended).** A nonempty selector list in which no entry equals a
field name and no entry extends a field name with a dot is silently
ignored: no override is emitted, no error is raised, and the base class
itself is returned (identity).  In particular
`derive(T, "nonexistent") = T`.  (A dotted selector whose *prefix* names
an existing field is however not ignored even when the nested path does
not exist — see the counterexample.) -/
theorem claim6_amended_unmatched_selector_identity (m : Model)
    (sel : List String) (r : Bool) (hne : sel ≠ [])
    (h : ∀ n ∈ fieldNames m.fields,
      sel.contains n = false ∧ subFieldsRequested sel n = false) :
    createPartialModel m sel r = m :=
  createPartialModel_id m sel r hne h

theorem claim6_witness :
    (["nonexistent"] ≠ ([] : List String)) ∧
    (∀ n ∈ fieldNames exUser.fields,
      (["nonexistent"] : List String).contains n = false ∧
      subFieldsRequested ["nonexistent"] n = false) ∧
    createPartialModel exUser ["nonexistent"] false = exUser :=
  ⟨by decide, by decide,
   claim6_amended_unmatched_selector_identity exUser ["nonexistent"] false
     (by decide) (by decide)⟩

/-- **C8.** `derive(T, "a")` with `a`, `b` required fields of `T`: field
`a` becomes optional — nullable union annotation, default `None` — while
the unselected field `b` keeps its full descriptor (annotation, default,
requiredness) unchanged. -/
theorem claim8_selected_vs_unselected (m : Model) (na nb : String)
    (fia fib : FieldInfo) (anna : Ann)
    (hnd : NodupNames m.fields) (hdot : NoDotNames m.fields)
    (hlka : lookupField m.fields na = some fia)
    (haa : fia.ann = .resolved anna)
    (hreqa : isRequiredFI fia = true)
    (hlkb : lookupField m.fields nb = some fib)
    (_hreqb : isRequiredFI fib = true)
    (hne : na ≠ nb) :
    lookupField (createPartialModel m [na] false).fields na
        = some (FieldInfo.mk (.resolved (mkOptional anna))
            Default.noneD false true) ∧
    lookupField (createPartialModel m [na] false).fields nb = some fib := by
  have heff : effSel m [na] = [na] := rfl
  have hdotn : ∀ f ∈ [na], ('.' : Char) ∉ f.data := by
    intro f hf
    rw [List.mem_singleton] at hf
    rw [hf]
    exact hdot na (mem_fieldNames_of_lookup hlka)
  have hca : ([na] : List String).contains na = true := by simp
  have hcb : ([na] : List String).contains nb = false := by
    simp [List.contains]
    exact fun hh => hne hh.symm
  constructor
  · rw [lookupField_createPartialModel m [na] false na fia hnd hlka, heff,
      fieldOverride_selected_required [na] false na fia anna hca haa hreqa,
      subFieldsRequested_eq_false [na] na hdotn]
    rfl
  · rw [lookupField_createPartialModel m [na] false nb fib hnd hlkb, heff,
      fieldOverride_skip [na] false nb fib hcb
        (subFieldsRequested_eq_false [na] nb hdotn)]

theorem claim8_witness :
    isRequiredFI (reqFI intAnn) = true ∧
    lookupField (createPartialModel exUser ["age"] false).fields "age"
        = some (FieldInfo.mk (.resolved (mkOptional intAnn))
            Default.noneD false true) ∧
    lookupField (createPartialModel exUser ["age"] false).fields "name"
        = some (reqFI strAnn) := by
  have h := claim8_selected_vs_unselected exUser "age" "name"
    (reqFI intAnn) (reqFI strAnn) intAnn (by decide) (by decide) (by decide)
    (by decide) (by decide) (by decide) (by decide) (by decide)
  exact ⟨by decide, h.1, h.2⟩


/-- **C4.** A field whose bare name is in the effective selector set and
whose descriptor is required gets the required→optional override: its
annotation is wrapped as a nullable union (`Optional[...]`) around the
rewritten inner annotation (rewritten when `recursive` is set or
sub-fields are requested, the original annotation otherwise), its default
becomes the absent-marker `None`, any default_factory is cleared and the
nullability-constraint flag is set. -/
theorem claim4_required_selected_override (m : Model) (fields : List String)
    (r : Bool) (n : String) (fi : FieldInfo) (a0 : Ann)
    (hnd : NodupNames m.fields)
    (hlk : lookupField m.fields n = some fi)
    (ha : fi.ann = .resolved a0)
    (hreq : isRequiredFI fi = true)
    (hc : (effSel m fields).contains n = true) :
    lookupField (createPartialModel m fields r).fields n =
      some (FieldInfo.mk
        (.resolved (mkOptional
          (if r || subFieldsRequested (effSel m fields) n
           then rewriteAnn (effSel m fields) r n a0 else a0)))
        Default.noneD false true) := by
  rw [lookupField_createPartialModel m fields r n fi hnd hlk,
      fieldOverride_selected_required (effSel m fields) r n fi a0 hc ha hreq]
  rfl

theorem claim4_witness :
    isRequiredFI (reqFI intAnn) = true ∧
    ((effSel exUser ["age"]).contains "age" = true) ∧
    lookupField (createPartialModel exUser ["age"] false).fields "age" =
      some (FieldInfo.mk
        (.resolved (mkOptional
          (if false || subFieldsRequested (effSel exUser ["age"]) "age"
           then rewriteAnn (effSel exUser ["age"]) false "age" intAnn
           else intAnn)))
        Default.noneD false true) :=
  ⟨by decide, by decide,
   claim4_required_selected_override exUser ["age"] false "age"
     (reqFI intAnn) intAnn (by decide) (by decide) (by decide) (by decide)
     (by decide)⟩

/-- **C5 (counterexample).** A selected, already-optional field does *not*
receive the nested rewrite: for `Profile` with already-optional
`child: Address = 7` (non-`None` default), `derive(Profile, "child",
recursive=True)` returns `Profile` itself — the child annotation stays the
plain `Address`, although deriving `Address` would have produced a
different (fully optional) model, so the rewrite visibly did not take
effect. -/
theorem claim5_counterexample :
    createPartialModel exProfile ["child"] true = exProfile ∧
    createPartialModel exAddress [] true ≠ exAddress := by decide

/-- **C5 (amended).** A field whose bare name is selected but that is
already optional gets no override at all: its default *and* its annotation
are left unchanged.  The nested rewrite never takes effect on a
name-selected field, even when the recursive flag is set or sub-fields are
requested for it — the rewritten annotation is computed but discarded. -/
theorem claim5_amended_selected_optional_passthrough (m : Model)
    (fields : List String) (r : Bool) (n : String) (fi : FieldInfo)
    (hnd : NodupNames m.fields)
    (hlk : lookupField m.fields n = some fi)
    (hc : (effSel m fields).contains n = true)
    (hopt : isRequiredFI fi = false) :
    lookupField (createPartialModel m fields r).fields n = some fi := by
  rw [lookupField_createPartialModel m fields r n fi hnd hlk,
      fieldOverride_selected_optional (effSel m fields) r n fi hc hopt]

theorem claim5_witness :
    ((effSel exProfile ["child"]).contains "child" = true) ∧
    isRequiredFI (FieldInfo.mk (.resolved (.model exAddress))
      (.value 7) false false) = false ∧
    lookupField (createPartialModel exProfile ["child"] true).fields "child"
      = some (FieldInfo.mk (.resolved (.model exAddress))
          (.value 7) false false) :=
  ⟨by decide, by decide,
   claim5_amended_selected_optional_passthrough exProfile ["child"] true
     "child" (FieldInfo.mk (.resolved (.model exAddress)) (.value 7) false false)
     (by decide) (by decide) (by decide) (by decide)⟩

/-- **C2 (counterexample).** `derive(T)` with zero selectors does *not*
give every top-level field the absent-marker default: in `Tagged` the
already-optional field `flag: int = 5` keeps its default `5`, not `None`,
after a full non-recursive derivation. -/
theorem claim2_counterexample :
    lookupField (createPartialModel exTagged [] false).fields "flag"
      = some (FieldInfo.mk (.resolved intAnn) (.value 5) false false) ∧
    Default.value 5 ≠ Default.noneD := by decide

/-- **C2 (amended).** `derive(T)` with zero selectors and
`recursive=False` makes every *required* top-level field with a resolvable
annotation optional — nullable union annotation, default `None`,
default_factory cleared, nullability flag set — while every other field
(already optional, or with an unresolvable annotation) is passed through
completely unchanged, keeping its default. -/
theorem claim2_amended_full_derivation (m : Model) (n : String)
    (fi : FieldInfo) (hnd : NodupNames m.fields) (hdot : NoDotNames m.fields)
    (hlk : lookupField m.fields n = some fi) :
    lookupField (createPartialModel m [] false).fields n =
      some (match fi with
            | .mk (.resolved a0) Default.undefined false _ =>
                FieldInfo.mk (.resolved (mkOptional a0)) Default.noneD false true
            | _ => fi) := by
  have heff : effSel m [] = fieldNames m.fields := rfl
  have hc : (fieldNames m.fields).contains n = true :=
    contains_of_mem_names (mem_fieldNames_of_lookup hlk)
  have hsfr : subFieldsRequested (fieldNames m.fields) n = false :=
    subFieldsRequested_eq_false _ n hdot
  rw [lookupField_createPartialModel m [] false n fi hnd hlk, heff]
  cases fi with
  | mk oa d hf nu =>
      cases oa with
      | unresolved => rw [fieldOverride_unresolved]
      | resolved a0 =>
          cases d with
          | undefined =>
              cases hf with
              | false =>
                  rw [fieldOverride_selected_required _ _ _
                    (FieldInfo.mk (.resolved a0) Default.undefined false nu)
                    a0 hc rfl rfl, hsfr]
                  rfl
              | true =>
                  rw [fieldOverride_selected_optional _ _ _
                    (FieldInfo.mk (.resolved a0) Default.undefined true nu)
                    hc rfl]
          | noneD =>
              rw [fieldOverride_selected_optional _ _ _
                (FieldInfo.mk (.resolved a0) Default.noneD hf nu) hc rfl]
          | value v =>
              rw [fieldOverride_selected_optional _ _ _
                (FieldInfo.mk (.resolved a0) (Default.value v) hf nu) hc rfl]

theorem claim2_witness :
    NodupNames exTagged.fields ∧ NoDotNames exTagged.fields ∧
    lookupField (createPartialModel exTagged [] false).fields "name" =
      some (FieldInfo.mk (.resolved (mkOptional strAnn))
        Default.noneD false true) := by
  have h := claim2_amended_full_derivation exTagged "name" (reqFI strAnn)
    (by decide) (by decide) (by decide)
  exact ⟨by decide, by decide, h⟩


/-- **C3 (counterexample).** `derive(T, recursive=True)` with no selectors
does *not* preserve the required/optional status of a model-typed field:
in `Order` the field `child: Address` is required, but in the derived
model it is optional (the empty selector list selects every field, so the
required child is made optional with default `None`). -/
theorem claim3_counterexample :
    (lookupField (createPartialModel exOrder [] true).fields "child").map
        isRequiredFI = some false ∧
    (lookupField exOrder.fields "child").map isRequiredFI = some true := by
  decide

/-- **C3 (amended).** `derive(T, recursive=True)` with no selectors, for a
model-typed field `child: U` (`U` derivable): when `child` is *required*,
its annotation is rewritten to a nullable union around the fully derived
`U` (all of `U`'s fields optional, same recursion flag) and `child` itself
becomes optional with default `None` — its required status is *not*
preserved, because the empty selector list selects every field.  When
`child` is already *optional*, it is left entirely unchanged: no override
is emitted and its annotation is not rewritten at all. -/
theorem claim3_amended_recursive_no_selectors (m : Model) (n : String)
    (fi : FieldInfo) (U : Model)
    (hnd : NodupNames m.fields) (hdot : NoDotNames m.fields)
    (hlk : lookupField m.fields n = some fi)
    (ha : fi.ann = .resolved (.model U)) :
    lookupField (createPartialModel m [] true).fields n =
      some (if isRequiredFI fi then
              FieldInfo.mk
                (.resolved (mkOptional (.model (createPartialModel U [] true))))
                Default.noneD false true
            else fi) := by
  have heff : effSel m [] = fieldNames m.fields := rfl
  have hc : (fieldNames m.fields).contains n = true :=
    contains_of_mem_names (mem_fieldNames_of_lookup hlk)
  have hcs : childrenSel (fieldNames m.fields) n = [] :=
    childrenSel_eq_nil _ n hdot
  have hrw : rewriteAnn (fieldNames m.fields) true n (.model U)
      = .model (createPartialModel U [] true) := by
    simp [rewriteAnn, hcs]
  rw [lookupField_createPartialModel m [] true n fi hnd hlk, heff]
  by_cases hreq : isRequiredFI fi = true
  · rw [fieldOverride_selected_required _ _ _ fi (.model U) hc ha hreq,
      Bool.true_or, if_pos rfl, hrw, if_pos hreq]
    rfl
  · rw [fieldOverride_selected_optional _ _ _ fi hc
      (Bool.not_eq_true _ ▸ hreq), if_neg hreq]

theorem claim3_witness :
    isRequiredFI (reqFI (.model exAddress)) = true ∧
    lookupField (createPartialModel exOrder [] true).fields "child" =
      some (FieldInfo.mk
        (.resolved (mkOptional (.model (createPartialModel exAddress [] true))))
        Default.noneD false true) := by
  have h := claim3_amended_recursive_no_selectors exOrder "child"
    (reqFI (.model exAddress)) exAddress (by decide) (by decide) (by decide)
    (by decide)
  exact ⟨by decide, by rw [h]; rfl⟩

/-- **C7.** For `T` with a model-typed field `child: U` (`U` derivable),
`derive(T, "child.*")` rewrites `child`'s annotation to `derive(U)` with
no selectors (all of `U`'s fields optional: the child-selector list `["*"]`
is replaced by the empty list) while `child`'s own descriptor — and hence
its required status — is carried over unchanged. -/
theorem append_dot_star (n : String) : n ++ ".*" = n ++ ("." ++ "*") := by
  rw [show (".*" : String) = "." ++ "*" from by decide]

theorem strStartsWith_dot_star (n : String) :
    strStartsWith (n ++ ".*") (n ++ ".") = true := by
  rw [append_dot_star]
  exact strStartsWith_append n "*"

theorem stripPre_dot_star (n : String) :
    stripPre (n ++ ".") (n ++ ".*") = "*" := by
  rw [append_dot_star]
  exact stripPre_append n "*"

theorem ne_dot_star (n : String) : n ≠ n ++ ".*" := by
  rw [append_dot_star]
  exact ne_append_dot n "*"

theorem claim7_nested_wildcard (m : Model) (n : String) (fi : FieldInfo)
    (U : Model) (hnd : NodupNames m.fields)
    (hlk : lookupField m.fields n = some fi)
    (ha : fi.ann = .resolved (.model U)) :
    lookupField (createPartialModel m [n ++ ".*"] false).fields n
        = some (withAnn fi (.model (createPartialModel U [] false))) ∧
    isRequiredFI (withAnn fi (.model (createPartialModel U [] false)))
        = isRequiredFI fi := by
  have hc : ([n ++ ".*"] : List String).contains n = false := by
    simp [List.contains]
    exact ne_dot_star n
  have hsfr : subFieldsRequested [n ++ ".*"] n = true := by
    simp [subFieldsRequested, strStartsWith_dot_star]
  have hcs : childrenSel [n ++ ".*"] n = ["*"] := by
    simp [childrenSel, strStartsWith_dot_star, stripPre_dot_star]
  have hrw : rewriteAnn [n ++ ".*"] false n (.model U)
      = .model (createPartialModel U [] false) := by
    simp [rewriteAnn, hcs]
  refine ⟨?_, isRequiredFI_withAnn fi _⟩
  rw [lookupField_createPartialModel m [n ++ ".*"] false n fi hnd hlk]
  have heff : effSel m [n ++ ".*"] = [n ++ ".*"] := rfl
  rw [heff, fieldOverride_sub_only _ false n fi (.model U) hc hsfr ha]
  simp only [hrw]

theorem claim7_witness :
    lookupField exOrder.fields "child" = some (reqFI (.model exAddress)) ∧
    lookupField (createPartialModel exOrder ["child" ++ ".*"] false).fields
        "child"
      = some (withAnn (reqFI (.model exAddress))
          (.model (createPartialModel exAddress [] false))) ∧
    isRequiredFI (withAnn (reqFI (.model exAddress))
        (.model (createPartialModel exAddress [] false)))
      = isRequiredFI (reqFI (.model exAddress)) := by
  have h := claim7_nested_wildcard exOrder "child" (reqFI (.model exAddress))
    exAddress (by decide) (by decide) (by decide)
  exact ⟨by decide, h.1, h.2⟩

/-- **C10.** A model all of whose fields are already optional (or carry an
unresolvable annotation) — in particular the result of a full derivation —
is returned unchanged by `derive` with no selectors and
`recursive=False`: no override is emitted and the base class itself comes
back.  Hence `derive(derive(T))` is the very same model as `derive(T)`,
for every `T`. -/
theorem claim10_derive_idempotent :
    (∀ P : Model, AllOptional P.fields → createPartialModel P [] false = P) ∧
    (∀ T : Model,
      createPartialModel (createPartialModel T [] false) [] false
        = createPartialModel T [] false) :=
  ⟨fun P h => createPartialModel_eq_self_of_optional P h,
   fun T => createPartialModel_eq_self_of_optional _
     (allOptional_createPartialModel T)⟩

theorem claim10_witness :
    AllOptional (createPartialModel exUser [] false).fields ∧
    createPartialModel (createPartialModel exUser [] false) [] false
      = createPartialModel exUser [] false :=
  ⟨by decide,
   claim10_derive_idempotent.1 (createPartialModel exUser [] false)
     (by decide)⟩

end PydanticPartial
